import Mathlib

/-!
Shallow embedding of `src/pebl2/result.py` (the result-collection core of
pebl-ayr0): the `LearnerResult` container with its deduplicating, bounded,
score-sorted candidate list, run bookkeeping, pickle persistence and the
`merge` factory function.

Python values are modelled as follows:
* a network structure is its directed edge list over integer node indices;
* scores are integers (the claims only use integer scores; no claim depends
  on float-specific behaviour);
* `hash(net)` — `Network.__hash__` lives in `pebl2/network.py`, which is not
  part of the sources; it is modelled from the spec ("a structural
  fingerprint (hash of the normalized edge set) ... order-independent") as
  the canonical (sorted, deduplicated) edge list;
* a Python dict used only for key membership (`nethashes`) is modelled as
  its key list in insertion order.  Python dict keys can be of mixed types:
  `add_network` stores integer hashes while `merge` stores Network objects,
  so keys are a sum type `PyKey`.  An integer hash key never equals a
  Network key (Python falls back to identity for cross-type `==`, and the
  spec defines Network equality structurally, over edge sets only);
* `time.time()` / `socket.gethostname()` are passed in explicitly as
  numeric arguments;
* `cPickle.dump`/`load` are external-library calls; their contract is
  modelled from the spec ("Must round-trip exactly") as an explicit
  injective encoding into a `PVal` tree together with a parser back.
-/

namespace Pebl

/-- A directed edge between two node indices. -/
abbrev Edge := Nat × Nat

/-- Linear order on edges (lexicographic), used only to normalize an edge
list into a canonical form for the structural fingerprint. -/
def edgeR (a b : Edge) : Prop := a.1 < b.1 ∨ (a.1 = b.1 ∧ a.2 ≤ b.2)

instance : DecidableRel edgeR := fun a b =>
  inferInstanceAs (Decidable (a.1 < b.1 ∨ (a.1 = b.1 ∧ a.2 ≤ b.2)))

/-- A scored network: the structural object (edge list) plus its score.
The shared node-set descriptor is carried by the collection, not repeated
here; no modelled operation reads a candidate's node set. -/
structure Network where
  edges : List Edge
  score : Int
deriving DecidableEq

/-- Modelled from the spec: `hash(net)` (from `pebl2/network.py`, not under
the sources) is "a structural fingerprint (hash of the normalized edge
set)", order-independent and score-independent.  Modelled as the sorted,
deduplicated edge list, which is a canonical representative of the edge
set. -/
def fingerprint (n : Network) : List Edge := (List.insertionSort edgeR n.edges).dedup

/-- A key of the `nethashes` Python dict.  `add_network` stores integer
hashes (`nethashes[nethash] = 1`); `merge` stores Network objects
(`dict([(net, 1) for net in allnets])`).  Cross-type keys are never equal
in Python (Network equality is structural over edge sets, an int is not a
Network), so the two constructors are disjoint. -/
inductive PyKey where
  | pkHash : List Edge → PyKey
  | pkNet : Network → PyKey
deriving DecidableEq

/-- `LearnerRunStats` (result.py lines 30-34): start time, optional end
time, host identifier.  The Python attribute `end` is named `stop` here
because `end` is a Lean keyword. -/
structure LearnerRunStats where
  start : Nat
  stop : Option Nat
  host : Nat
deriving DecidableEq

/-- `LearnerResult` (result.py lines 36-78): node-set reference (opaque,
`none` when constructed without a learner), capacity `size`, the ascending
score-sorted candidate list `networks`, the fingerprint dict key list
`nethashes`, and the run records. -/
structure LearnerResult where
  nodes : Option Nat
  size : Nat
  networks : List Network
  nethashes : List PyKey
  runs : List LearnerRunStats
deriving DecidableEq

/-- The Python idiom `size or config.get('result.size')` of `__init__`
(line 75): `None` and `0` are both falsy, so either yields the configured
value; any non-zero argument is kept. -/
def pyOrSize (sizeArg : Option Nat) (cfgSize : Nat) : Nat :=
  match sizeArg with
  | none => cfgSize
  | some 0 => cfgSize
  | some (k+1) => k+1

/-- `LearnerResult.__init__` (lines 72-78).  `cfgSize` is the configured
`result.size`; modelled from the spec, its default is 1000 (`config.py` is
not under the sources).  `nodes` stands for `learner_.data.variables`
(opaque here), `none` when no learner is given. -/
def initLR (cfgSize : Nat) (nodes : Option Nat) (sizeArg : Option Nat) : LearnerResult :=
  { nodes := nodes
    size := pyOrSize sizeArg cfgSize
    networks := []
    nethashes := []
    runs := [] }

/-- Modelled from the spec: the Network total order used by `insort` and
`list.sort` is "based on score".  Strict form, used by `insort`. -/
def netLT (a b : Network) : Prop := a.score < b.score

instance : DecidableRel netLT := fun a b => inferInstanceAs (Decidable (a.score < b.score))

/-- Non-strict score order, used to state sortedness and for `list.sort`. -/
def netLE (a b : Network) : Prop := a.score ≤ b.score

instance : DecidableRel netLE := fun a b => inferInstanceAs (Decidable (a.score ≤ b.score))

instance : IsTotal Network netLE := ⟨fun a b => Int.le_total a.score b.score⟩

instance : IsTrans Network netLE := ⟨fun _ _ _ hab hbc => le_trans hab hbc⟩

/-- `bisect.insort(nets, snet)`: insert before the first strictly greater
element (bisect-right semantics, comparisons via the score order). -/
def insort (l : List Network) (n : Network) : List Network := List.orderedInsert netLT n l

/-- `dict.pop(k)` on the key list: remove the key.  (The `KeyError` Python
raises when the key is absent is not modelled; no verified execution path
reaches `pop` with an absent key.) -/
def dictPop (d : List PyKey) (k : PyKey) : List PyKey := d.filter (fun x => decide (x ≠ k))

/-- `LearnerResult.add_network` (lines 88-105), translated branch for
branch.  The stored candidate `snet` carries the offered structure's edges
and the offered score (`Network(copy(self.nodes), copy(net.edges()),
score=score)`).  The function body has no `return` statement, so the
Python call always evaluates to `None`; the state transformer is modelled
here and the return value separately by `add_networkFull`. -/
def add_network (s : LearnerResult) (net : Network) (score : Int) : LearnerResult :=
  if s.size = 0 ∨ s.networks.length < s.size then
    if PyKey.pkHash (fingerprint net) ∈ s.nethashes then s
    else
      { s with
        networks := insort s.networks { edges := net.edges, score := score }
        nethashes := s.nethashes ++ [PyKey.pkHash (fingerprint net)] }
  else
    match s.networks with
    | [] => s
    | worst :: rest =>
      if score > worst.score ∧ PyKey.pkHash (fingerprint net) ∉ s.nethashes then
        { s with
          networks := insort rest { edges := net.edges, score := score }
          nethashes := dictPop s.nethashes (PyKey.pkHash (fingerprint worst)) ++
            [PyKey.pkHash (fingerprint net)] }
      else s

/-- `add_network` together with its Python return value: the body contains
no `return` statement on any path, so every call returns `None`. -/
def add_networkFull (s : LearnerResult) (net : Network) (score : Int) :
    LearnerResult × Option Bool :=
  (add_network s net score, none)

/-- A sequence of `add_network` calls. -/
def offerAll (s : LearnerResult) (offers : List (Network × Int)) : LearnerResult :=
  offers.foldl (fun st o => add_network st o.1 o.2) s

/-- `LearnerResult.start_run` (lines 80-82): append a fresh run record with
the current time and host. -/
def start_run (s : LearnerResult) (t h : Nat) : LearnerResult :=
  { s with runs := s.runs ++ [{ start := t, stop := none, host := h }] }

/-- Errors surfaced by the modelled operations. -/
inductive Err where
  | indexError
  | corruptData
deriving DecidableEq

/-- `LearnerResult.stop_run` (lines 84-86): `self.runs[-1].end = time.time()`.
On an empty run list, `runs[-1]` raises `IndexError`; otherwise the last
record's end time is set unconditionally (even when already set). -/
def stop_run (s : LearnerResult) (t : Nat) : Except Err LearnerResult :=
  match s.runs.getLast? with
  | none => .error .indexError
  | some r => .ok { s with runs := s.runs.dropLast ++ [{ r with stop := some t }] }

/-- The ranked (best-first) view: `list(reversed(self.networks))`, the
order handed to the posterior collaborator (line 136). -/
def rankedView (s : LearnerResult) : List Network := s.networks.reverse

/-- Scores of the ranked view, best first. -/
def rankedScores (s : LearnerResult) : List Int := (rankedView s).map (fun n => n.score)

/-- All candidates of a list of collections, scanned in input order:
`flatten(r.networks for r in results)`. -/
def joinedNets (rs : List LearnerResult) : List Network := (rs.map (fun r => r.networks)).flatten

/-- `list(set([...]))` over networks, `seen` collecting the fingerprints
already inserted.  Modelled from CPython set semantics: adding an element
equal (structurally — Network equality is over edge sets, per the spec) to
a present one leaves the set unchanged, so the first occurrence survives;
the iteration order of the resulting list is modelled as insertion order
(the result is sorted immediately afterwards, so only the relative order of
equal-score survivors depends on this choice, and no claim does). -/
def dedupAux : List Network → List (List Edge) → List Network
  | [], _ => []
  | n :: ns, seen =>
    if fingerprint n ∈ seen then dedupAux ns seen
    else n :: dedupAux ns (fingerprint n :: seen)

/-- First-occurrence-wins structural deduplication of a network list. -/
def dedupFirst (l : List Network) : List Network := dedupAux l []

/-- `merge` (lines 268-300).  `flatten(args)` is modelled by taking the
already-flattened list of collections.  With zero inputs, `results[0].data`
raises `IndexError`.  With exactly one input, that input itself is
returned.  Otherwise a fresh `LearnerResult()` (default capacity 1000) is
populated: candidates of all inputs are deduplicated structurally
(first-seen wins), sorted ascending by score, and stored untruncated;
`nethashes` is rebuilt as `dict([(net, 1) for net in allnets])`, i.e. keyed
by the Network objects themselves, not by their hashes; run records are
concatenated in input order.  The call `results[0].nodes()` is modelled
from the spec as retrieving the first input's node-set reference
(`pebl2/data.py` is not under the sources). -/
def merge (results : List LearnerResult) : Except Err LearnerResult :=
  if results.length = 1 then
    match results with
    | r :: _ => .ok r
    | [] => .error .indexError
  else
    match results with
    | [] => .error .indexError
    | r0 :: _ =>
      let allnets := List.insertionSort netLE (dedupFirst (joinedNets results))
      .ok
        { nodes := r0.nodes
          size := 1000
          networks := allnets
          nethashes := allnets.map PyKey.pkNet
          runs := (results.map (fun r => r.runs)).flatten }

/-- A pickle stream.  Modelled from the spec: `cPickle` (an external
library, used by `tofile`/`fromfile`) serializes the object graph into "an
opaque serialized stream" that "must round-trip exactly"; modelled as a
concrete tree of naturals, integers and lists. -/
inductive PVal where
  | nat : Nat → PVal
  | int : Int → PVal
  | list : List PVal → PVal

/-- Pickled form of an optional natural. -/
def encOptNat : Option Nat → PVal
  | none => .list []
  | some k => .list [.nat k]

/-- Pickled form of an edge. -/
def encEdge (e : Edge) : PVal := .list [.nat e.1, .nat e.2]

/-- Pickled form of a network: edge list plus score. -/
def encNet (n : Network) : PVal := .list [.list (n.edges.map encEdge), .int n.score]

/-- Pickled form of a `nethashes` dict key. -/
def encKey : PyKey → PVal
  | .pkHash fp => .list [.nat 0, .list (fp.map encEdge)]
  | .pkNet n => .list [.nat 1, encNet n]

/-- Pickled form of a run record. -/
def encRun (r : LearnerRunStats) : PVal := .list [.nat r.start, encOptNat r.stop, .nat r.host]

/-- `LearnerResult.tofile` (lines 107-115): pickle the whole collection —
node reference, capacity, candidate list, fingerprint dict, run records. -/
def tofile (s : LearnerResult) : PVal :=
  .list
    [encOptNat s.nodes, .nat s.size, .list (s.networks.map encNet),
      .list (s.nethashes.map encKey), .list (s.runs.map encRun)]

/-- Parse an optional natural back from a pickle stream. -/
def decOptNat : PVal → Except Err (Option Nat)
  | .list [] => .ok none
  | .list [.nat k] => .ok (some k)
  | _ => .error .corruptData

/-- Parse an edge back from a pickle stream. -/
def decEdge : PVal → Except Err Edge
  | .list [.nat a, .nat b] => .ok (a, b)
  | _ => .error .corruptData

/-- Parse each element of a pickled list with the given element parser. -/
def decList (dec : PVal → Except Err α) : List PVal → Except Err (List α)
  | [] => .ok []
  | v :: vs => do
    let a ← dec v
    let as ← decList dec vs
    .ok (a :: as)

/-- Parse a network back from a pickle stream. -/
def decNet : PVal → Except Err Network
  | .list [.list es, .int sc] => do
    let edges ← decList decEdge es
    .ok { edges := edges, score := sc }
  | _ => .error .corruptData

/-- Parse a `nethashes` dict key back from a pickle stream. -/
def decKey : PVal → Except Err PyKey
  | .list [.nat 0, .list es] => do
    let fp ← decList decEdge es
    .ok (.pkHash fp)
  | .list [.nat 1, v] => do
    let n ← decNet v
    .ok (.pkNet n)
  | _ => .error .corruptData

/-- Parse a run record back from a pickle stream. -/
def decRun : PVal → Except Err LearnerRunStats
  | .list [.nat st, ov, .nat h] => do
    let e ← decOptNat ov
    .ok { start := st, stop := e, host := h }
  | _ => .error .corruptData

/-- `result.fromfile` (lines 302-304): unpickle a collection, failing on a
stream that does not have the expected shape. -/
def fromfile (v : PVal) : Except Err LearnerResult :=
  match v with
  | .list [nv, .nat sz, .list nets, .list keys, .list rs] => do
    let nodes ← decOptNat nv
    let networks ← decList decNet nets
    let nethashes ← decList decKey keys
    let runs ← decList decRun rs
    .ok { nodes := nodes, size := sz, networks := networks, nethashes := nethashes, runs := runs }
  | _ => .error .corruptData

/-- Structure offered with score 5 in the concrete scenarios. -/
def Na : Network := { edges := [(0, 1)], score := 5 }

/-- The same structure as `Na`, re-offered with score 9. -/
def Na9 : Network := { edges := [(0, 1)], score := 9 }

/-- Second distinct structure (offered with score 3). -/
def Nb : Network := { edges := [(0, 2)], score := 3 }

/-- Third distinct structure (offered with score 8). -/
def Nc : Network := { edges := [(1, 2)], score := 8 }

/-- Fourth distinct structure (offered with score 1). -/
def Nd : Network := { edges := [(2, 3)], score := 1 }

/-- Default-capacity collection holding only `Na` (score 5). -/
def S1 : LearnerResult := offerAll (initLR 1000 (some 0) none) [(Na, 5)]

/-- Capacity-2 collection filled with scores 3 and 5. -/
def Sfull : LearnerResult := offerAll (initLR 1000 (some 0) (some 2)) [(Na, 5), (Nb, 3)]

/-- The capacity-2 scenario: distinct structures offered with scores
[5, 3, 8, 1]. -/
def scenarioC2 : LearnerResult :=
  offerAll (initLR 1000 (some 0) (some 2)) [(Na, 5), (Nb, 3), (Nc, 8), (Nd, 1)]

/-- The duplicate scenario: the same structure offered with scores 5 then 9. -/
def scenarioDup : LearnerResult := offerAll (initLR 1000 (some 0) none) [(Na, 5), (Na9, 9)]

/-- A collection whose single run record is already closed. -/
def Sclosed : LearnerResult :=
  { nodes := none, size := 1000, networks := [], nethashes := []
    runs := [{ start := 0, stop := some 1, host := 7 }] }

/-- A freshly constructed collection (empty run list). -/
def SemptyRuns : LearnerResult := initLR 1000 (some 0) none

/-- First merge input: holds the structure `[(0,1)]` with score 5. -/
def Rm1 : LearnerResult := offerAll (initLR 1000 (some 0) none) [(Na, 5)]

/-- Second merge input: holds the same structure `[(0,1)]` with score 5,
plus the distinct structure `[(0,2)]` with score 3. -/
def Rm2 : LearnerResult := offerAll (initLR 1000 (some 0) none) [(Na, 5), (Nb, 3)]

/-- A collection whose stored `size` field is 0 (reachable by configuring
`result.size = 0` and omitting the constructor argument). -/
def Sz0 : LearnerResult := offerAll (initLR 0 (some 0) none) [(Na, 5), (Nb, 3), (Nc, 8)]

/-- Non-empty collection (candidates and a run record) used to exercise the
persistence round-trip. -/
def Xc : LearnerResult :=
  start_run (offerAll (initLR 1000 (some 3) none) [(Na, 5), (Nb, 3)]) 10 7

/-- The value of `merge [Rm1, Rm2]`: note the `nethashes` keys are Network
objects, not fingerprint hashes. -/
def Mval : LearnerResult :=
  { nodes := some 0, size := 1000, networks := [Nb, Na]
    nethashes := [PyKey.pkNet Nb, PyKey.pkNet Na], runs := [] }

/-! Helper lemmas (shared facts about the embedded operations). -/

/-- Inserting with `insort` grows the list by exactly one element. -/
theorem insort_length (l : List Network) (n : Network) :
    (insort l n).length = l.length + 1 :=
  List.orderedInsert_length netLT l n

/-- `insort` preserves ascending sortedness by score. -/
theorem sorted_insort (x : Network) :
    ∀ l : List Network, List.Sorted netLE l → List.Sorted netLE (insort l x)
  | [], _ => List.sorted_singleton x
  | y :: ys, h => by
    rw [insort, List.orderedInsert]
    split
    · next hlt =>
      rw [List.sorted_cons]
      constructor
      · intro b hb
        rcases List.mem_cons.mp hb with rfl | hb2
        · exact le_of_lt hlt
        · exact le_trans (le_of_lt hlt) (List.rel_of_sorted_cons h b hb2)
      · exact h
    · next hnlt =>
      rw [List.sorted_cons] at h
      rw [List.sorted_cons]
      refine ⟨?_, sorted_insort x ys h.2⟩
      intro b hb
      rcases (List.mem_orderedInsert netLT).mp hb with rfl | hb2
      · exact Int.not_lt.mp hnlt
      · exact h.1 b hb2

/-- `add_network` never changes the capacity field. -/
theorem add_network_size (s : LearnerResult) (net : Network) (sc : Int) :
    (add_network s net sc).size = s.size := by
  unfold add_network
  split
  · split
    · rfl
    · rfl
  · split
    · rfl
    · split
      · rfl
      · rfl

/-- A single `add_network` call keeps the candidate count within capacity. -/
theorem add_network_length_le (s : LearnerResult) (net : Network) (sc : Int)
    (hsz : s.size ≠ 0) (hle : s.networks.length ≤ s.size) :
    (add_network s net sc).networks.length ≤ s.size := by
  unfold add_network
  split
  · next hcond =>
    rcases hcond with h0 | hlt
    · exact absurd h0 hsz
    · split
      · exact hle
      · show (insort s.networks { edges := net.edges, score := sc }).length ≤ s.size
        rw [insort_length]
        omega
  · split
    · next heq => exact hle
    · next worst rest heq =>
      split
      · show (insort rest { edges := net.edges, score := sc }).length ≤ s.size
        rw [insort_length]
        rw [heq] at hle
        simpa using hle
      · exact hle

/-- Folding `add_network` over any offer list keeps the candidate count
within the (unchanged) capacity. -/
theorem offerAll_invariant (offers : List (Network × Int)) :
    ∀ s : LearnerResult, s.size ≠ 0 → s.networks.length ≤ s.size →
      (offerAll s offers).networks.length ≤ (offerAll s offers).size ∧
      (offerAll s offers).size = s.size := by
  induction offers with
  | nil => intro s _ h2; exact ⟨h2, rfl⟩
  | cons o os ih =>
    intro s h1 h2
    have hstep := add_network_length_le s o.1 o.2 h1 h2
    have hsz := add_network_size s o.1 o.2
    have hrec := ih (add_network s o.1 o.2) (by rw [hsz]; exact h1) (by rw [hsz]; exact hstep)
    refine ⟨hrec.1, ?_⟩
    rw [show offerAll s (o :: os) = offerAll (add_network s o.1 o.2) os from rfl]
    rw [hrec.2, hsz]

/-- Every survivor of the deduplication pass occurs in the input list. -/
theorem dedupAux_subset :
    ∀ (l : List Network) (seen : List (List Edge)) (m : Network),
      m ∈ dedupAux l seen → m ∈ l := by
  intro l
  induction l with
  | nil => intro seen m h; exact absurd h (List.not_mem_nil m)
  | cons n ns ih =>
    intro seen m h
    simp only [dedupAux] at h
    split at h
    · exact List.mem_cons_of_mem n (ih seen m h)
    · rcases List.mem_cons.mp h with rfl | h2
      · exact List.mem_cons_self _ _
      · exact List.mem_cons_of_mem n (ih _ m h2)

/-- No survivor of the deduplication pass has a fingerprint that was
already in the `seen` accumulator. -/
theorem dedupAux_fp_not_seen :
    ∀ (l : List Network) (seen : List (List Edge)) (m : Network),
      m ∈ dedupAux l seen → fingerprint m ∉ seen := by
  intro l
  induction l with
  | nil => intro seen m h; exact absurd h (List.not_mem_nil m)
  | cons n ns ih =>
    intro seen m h
    simp only [dedupAux] at h
    split at h
    · exact ih seen m h
    · next hns =>
      rcases List.mem_cons.mp h with rfl | h2
      · exact hns
      · intro hmem
        exact ih _ m h2 (List.mem_cons_of_mem _ hmem)

/-- Each survivor of the deduplication pass is the first element of the
input carrying its fingerprint: first occurrence wins. -/
theorem dedupAux_find :
    ∀ (l : List Network) (seen : List (List Edge)) (m : Network),
      m ∈ dedupAux l seen →
      l.find? (fun x => decide (fingerprint x = fingerprint m)) = some m := by
  intro l
  induction l with
  | nil => intro seen m h; exact absurd h (List.not_mem_nil m)
  | cons n ns ih =>
    intro seen m h
    simp only [dedupAux] at h
    split at h
    · next hseen =>
      have hm := dedupAux_fp_not_seen ns seen m h
      have hne : fingerprint n ≠ fingerprint m := by
        intro he
        rw [← he] at hm
        exact hm hseen
      rw [List.find?_cons_of_neg _ (by simpa using hne)]
      exact ih seen m h
    · next hns =>
      rcases List.mem_cons.mp h with rfl | h2
      · rw [List.find?_cons_of_pos _ (by simp)]
      · have hm := dedupAux_fp_not_seen ns _ m h2
        have hne : fingerprint n ≠ fingerprint m := by
          intro he
          exact hm (by rw [← he]; exact List.mem_cons_self _ _)
        rw [List.find?_cons_of_neg _ (by simpa using hne)]
        exact ih _ m h2

/-- Every fingerprint of the input that the accumulator has not yet seen is
still represented after deduplication. -/
theorem dedupAux_fp_complete :
    ∀ (l : List Network) (seen : List (List Edge)) (f : List Edge),
      f ∈ l.map fingerprint → f ∉ seen → f ∈ (dedupAux l seen).map fingerprint := by
  intro l
  induction l with
  | nil => intro seen f h _; simp at h
  | cons n ns ih =>
    intro seen f hf hns
    simp only [List.map_cons, List.mem_cons] at hf
    simp only [dedupAux]
    split
    · next hseen =>
      rcases hf with rfl | hf2
      · exact absurd hseen hns
      · exact ih seen f hf2 hns
    · next hnew =>
      rcases hf with rfl | hf2
      · simp
      · by_cases heq : f = fingerprint n
        · rw [heq]; simp
        · have hnotin : f ∉ fingerprint n :: seen := by
            intro hmem
            rcases List.mem_cons.mp hmem with h1 | h2
            · exact heq h1
            · exact hns h2
          rw [List.map_cons]
          exact List.mem_cons_of_mem _ (ih _ f hf2 hnotin)

/-- After deduplication the fingerprints are pairwise distinct. -/
theorem dedupAux_fp_nodup :
    ∀ (l : List Network) (seen : List (List Edge)),
      ((dedupAux l seen).map fingerprint).Nodup := by
  intro l
  induction l with
  | nil => intro seen; simp [dedupAux]
  | cons n ns ih =>
    intro seen
    simp only [dedupAux]
    split
    · exact ih seen
    · rw [List.map_cons, List.nodup_cons]
      refine ⟨?_, ih _⟩
      intro hmem
      rcases List.mem_map.mp hmem with ⟨m, hm, hfpm⟩
      exact dedupAux_fp_not_seen ns _ m hm (by rw [hfpm]; exact List.mem_cons_self _ _)

/-- Parsing inverts pickling for edges. -/
theorem decEdge_enc (e : Edge) : decEdge (encEdge e) = .ok e := rfl

/-- Parsing inverts pickling for optional naturals. -/
theorem decOptNat_enc (o : Option Nat) : decOptNat (encOptNat o) = .ok o := by
  cases o <;> rfl

/-- Parsing a pickled list element-wise inverts pickling, given that the
element parser inverts the element encoder. -/
theorem decList_enc {α : Type} (dec : PVal → Except Err α) (enc : α → PVal)
    (l : List α) (h : ∀ a ∈ l, dec (enc a) = .ok a) :
    decList dec (l.map enc) = .ok l := by
  induction l with
  | nil => rfl
  | cons a as ih =>
    rw [List.map_cons]
    simp only [decList]
    rw [h a (List.mem_cons_self a as), ih (fun b hb => h b (List.mem_cons_of_mem a hb))]
    rfl

/-- Parsing inverts pickling for networks. -/
theorem decNet_enc (n : Network) : decNet (encNet n) = .ok n := by
  rw [encNet]
  simp only [decNet]
  rw [decList_enc decEdge encEdge n.edges (fun a _ => decEdge_enc a)]
  rfl

/-- Parsing inverts pickling for dict keys. -/
theorem decKey_enc (k : PyKey) : decKey (encKey k) = .ok k := by
  cases k with
  | pkHash fp =>
    simp only [encKey, decKey]
    rw [decList_enc decEdge encEdge fp (fun a _ => decEdge_enc a)]
    rfl
  | pkNet n =>
    simp only [encKey, decKey]
    rw [decNet_enc n]
    rfl

/-- Parsing inverts pickling for run records. -/
theorem decRun_enc (r : LearnerRunStats) : decRun (encRun r) = .ok r := by
  simp only [encRun, decRun]
  rw [decOptNat_enc]
  rfl

/-- Unpickling inverts pickling for whole collections. -/
theorem fromfile_tofile (X : LearnerResult) : fromfile (tofile X) = .ok X := by
  simp only [tofile, fromfile]
  rw [decOptNat_enc, decList_enc decNet encNet X.networks (fun a _ => decNet_enc a),
    decList_enc decKey encKey X.nethashes (fun a _ => decKey_enc a),
    decList_enc decRun encRun X.runs (fun a _ => decRun_enc a)]
  rfl

/-! Claim theorems. -/

/-- C1: for every collection state and every offered candidate whose
structural fingerprint is already present in the fingerprint index,
`add_network` leaves the entire state (candidate sequence and fingerprint
index) unchanged, whatever the offered score; concretely, offering the
same structure with scores 5 then 9 leaves only the score-5 entry. -/
theorem add_network_duplicate_rejected (s : LearnerResult) (net : Network) (sc : Int)
    (hdup : PyKey.pkHash (fingerprint net) ∈ s.nethashes) :
    add_network s net sc = s ∧ rankedScores scenarioDup = [5] := by
  refine ⟨?_, by decide⟩
  unfold add_network
  split
  · rfl
  · split
    · rfl
    · rw [if_neg (fun hand => hand.2 hdup)]

/-- Witness for C1: the collection already holding the structure `[(0,1)]`
with score 5 is untouched when the same structure is offered with score 9. -/
theorem add_network_duplicate_rejected_witness : add_network S1 Na9 9 = S1 :=
  (add_network_duplicate_rejected S1 Na9 9 (by decide)).1

/-- C2: on a full collection (positive capacity) offered a fresh
fingerprint, a score strictly above the minimum member's evicts that
minimum from the sequence and the index, inserts the newcomer at its
sorted position, and keeps the size; otherwise nothing changes.
Concretely, capacity 2 with distinct structures scored [5, 3, 8, 1] ends
with ranked view [8, 5]. -/
theorem add_network_eviction (s : LearnerResult) (net : Network) (sc : Int)
    (worst : Network) (rest : List Network)
    (hnets : s.networks = worst :: rest)
    (hsz : s.size ≠ 0)
    (hfull : ¬ s.networks.length < s.size)
    (hfresh : PyKey.pkHash (fingerprint net) ∉ s.nethashes)
    (hsorted : List.Sorted netLE s.networks) :
    ((sc > worst.score →
        (add_network s net sc).networks = insort rest { edges := net.edges, score := sc } ∧
        (add_network s net sc).nethashes =
          dictPop s.nethashes (PyKey.pkHash (fingerprint worst)) ++
            [PyKey.pkHash (fingerprint net)] ∧
        List.Sorted netLE (add_network s net sc).networks ∧
        (add_network s net sc).networks.length = s.networks.length ∧
        ∀ m ∈ s.networks, netLE worst m) ∧
      (¬ sc > worst.score → add_network s net sc = s)) ∧
    rankedScores scenarioC2 = [8, 5] := by
  have key : add_network s net sc =
      if sc > worst.score ∧ PyKey.pkHash (fingerprint net) ∉ s.nethashes then
        { s with
          networks := insort rest { edges := net.edges, score := sc }
          nethashes := dictPop s.nethashes (PyKey.pkHash (fingerprint worst)) ++
            [PyKey.pkHash (fingerprint net)] }
      else s := by
    unfold add_network
    rw [if_neg (not_or.mpr ⟨hsz, hfull⟩), hnets]
  rw [hnets] at hsorted
  rw [List.sorted_cons] at hsorted
  refine ⟨⟨?_, ?_⟩, by decide⟩
  · intro hsc
    rw [key, if_pos ⟨hsc, hfresh⟩]
    refine ⟨rfl, rfl, sorted_insort _ rest hsorted.2, ?_, ?_⟩
    · show (insort rest { edges := net.edges, score := sc }).length = s.networks.length
      rw [insort_length, hnets, List.length_cons]
    · intro m hm
      rw [hnets] at hm
      rcases List.mem_cons.mp hm with rfl | hm2
      · exact le_refl _
      · exact hsorted.1 m hm2
  · intro hsc
    rw [key, if_neg (fun hand => hsc hand.1)]

/-- Witness for C2: the full capacity-2 collection holding scores [3, 5],
offered a fresh structure with score 8, keeps its size. -/
theorem add_network_eviction_witness :
    (add_network Sfull Nc 8).networks.length = Sfull.networks.length :=
  (((add_network_eviction Sfull Nc 8 Nb [Na] (by decide) (by decide) (by decide)
    (by decide) (by decide)).1.1 (by decide)).2.2.2.1)

/-- C3: from a collection constructed with positive capacity, any finite
sequence of `add_network` calls (hence every prefix of any call sequence)
leaves at most `capacity` stored candidates. -/
theorem capacity_invariant (c cfg : Nat) (nodes : Option Nat) (hc : c ≠ 0)
    (offers pre post : List (Network × Int)) (_hsplit : offers = pre ++ post) :
    (offerAll (initLR cfg nodes (some c)) pre).networks.length ≤ c := by
  have hsz : (initLR cfg nodes (some c)).size = c := by
    cases c with
    | zero => exact absurd rfl hc
    | succ k => rfl
  have h := offerAll_invariant pre (initLR cfg nodes (some c))
    (by rw [hsz]; exact hc) (by simp [initLR])
  calc (offerAll (initLR cfg nodes (some c)) pre).networks.length
      ≤ (offerAll (initLR cfg nodes (some c)) pre).size := h.1
    _ = (initLR cfg nodes (some c)).size := h.2
    _ = c := hsz

/-- Witness for C3: with capacity 2 the collection holds at most 2
candidates after the first three of the four scenario offers. -/
theorem capacity_invariant_witness :
    (offerAll (initLR 1000 (some 0) (some 2)) [(Na, 5), (Nb, 3), (Nc, 8)]).networks.length ≤ 2 :=
  capacity_invariant 2 1000 (some 0) (by decide)
    [(Na, 5), (Nb, 3), (Nc, 8), (Nd, 1)] [(Na, 5), (Nb, 3), (Nc, 8)] [(Nd, 1)] rfl

/-- C4: merging two or more collections yields the union of their
candidates deduplicated by structural fingerprint with the first
occurrence in input-scan order winning, sorted ascending by score, with
pairwise-distinct fingerprints, untruncated (its length is the number of
distinct fingerprints, independent of any capacity), and with all run
records concatenated; the inputs, being only read, are unchanged. -/
theorem merge_dedup_sorted (r0 r1 : LearnerResult) (rest : List LearnerResult) :
    ∃ out, merge (r0 :: r1 :: rest) = .ok out ∧
      List.Sorted netLE out.networks ∧
      (∀ m ∈ out.networks,
        (joinedNets (r0 :: r1 :: rest)).find?
          (fun x => decide (fingerprint x = fingerprint m)) = some m) ∧
      (∀ f, f ∈ out.networks.map fingerprint ↔
        f ∈ (joinedNets (r0 :: r1 :: rest)).map fingerprint) ∧
      (out.networks.map fingerprint).Nodup ∧
      out.networks.length = (dedupFirst (joinedNets (r0 :: r1 :: rest))).length ∧
      out.runs = ((r0 :: r1 :: rest).map (fun r => r.runs)).flatten := by
  have hmerge : merge (r0 :: r1 :: rest) = .ok
      { nodes := r0.nodes, size := 1000
        networks := List.insertionSort netLE (dedupFirst (joinedNets (r0 :: r1 :: rest)))
        nethashes :=
          (List.insertionSort netLE (dedupFirst (joinedNets (r0 :: r1 :: rest)))).map
            PyKey.pkNet
        runs := ((r0 :: r1 :: rest).map (fun r => r.runs)).flatten } := by
    unfold merge
    rw [if_neg (by simp)]
  have hperm :=
    (List.perm_insertionSort netLE (dedupFirst (joinedNets (r0 :: r1 :: rest)))).map fingerprint
  refine ⟨_, hmerge, List.sorted_insertionSort netLE _, ?_, ?_, ?_, ?_, rfl⟩
  · intro m hm
    exact dedupAux_find _ [] m ((List.mem_insertionSort netLE).mp hm)
  · intro f
    rw [hperm.mem_iff]
    constructor
    · intro hf
      rcases List.mem_map.mp hf with ⟨m, hm, rfl⟩
      exact List.mem_map_of_mem fingerprint (dedupAux_subset _ [] m hm)
    · intro hf
      exact dedupAux_fp_complete _ [] f hf (List.not_mem_nil f)
  · rw [hperm.nodup_iff]
    exact dedupAux_fp_nodup _ []
  · exact (List.perm_insertionSort netLE _).length_eq

/-- Witness for C4: merging the two concrete collections `Rm1` and `Rm2`. -/
theorem merge_dedup_sorted_witness :
    ∃ out, merge [Rm1, Rm2] = .ok out ∧
      List.Sorted netLE out.networks ∧
      (∀ m ∈ out.networks,
        (joinedNets [Rm1, Rm2]).find?
          (fun x => decide (fingerprint x = fingerprint m)) = some m) ∧
      (∀ f, f ∈ out.networks.map fingerprint ↔
        f ∈ (joinedNets [Rm1, Rm2]).map fingerprint) ∧
      (out.networks.map fingerprint).Nodup ∧
      out.networks.length = (dedupFirst (joinedNets [Rm1, Rm2])).length ∧
      out.runs = ([Rm1, Rm2].map (fun r => r.runs)).flatten :=
  merge_dedup_sorted Rm1 Rm2 []

/-- C5 (code bug): after `merge` the fingerprint index does not equal the
set of item fingerprints — `merge` keys `nethashes` by Network objects
(`dict([(net, 1) for net in allnets])`) while `add_network` keys it by
`hash(net)` — so a later `add_network` of an already-present structure is
accepted as a duplicate instead of rejected. -/
theorem merge_breaks_fingerprint_index :
    merge [Rm1, Rm2] = .ok Mval ∧
    Na ∈ Mval.networks ∧
    PyKey.pkHash (fingerprint Na) ∉ Mval.nethashes ∧
    (add_network Mval Na9 9).networks.map (fun n => fingerprint n) =
      [[(0, 2)], [(0, 1)], [(0, 1)]] ∧
    (add_network Mval Na9 9).networks.length = Mval.networks.length + 1 :=
  ⟨rfl, by decide, by decide, by decide, by decide⟩

/-- C6: for every (in particular every non-empty) collection, unpickling
the pickled form restores the candidate sequence (same structures and
scores in the same order, hence the same ranked view) and the run records
(start, end, host) — indeed the whole collection. -/
theorem roundtrip_tofile_fromfile (X : LearnerResult) (_hne : X.networks ≠ []) :
    ∃ Y, fromfile (tofile X) = .ok Y ∧ Y.networks = X.networks ∧
      rankedView Y = rankedView X ∧ Y.runs = X.runs ∧ Y = X :=
  ⟨X, fromfile_tofile X, rfl, rfl, rfl, rfl⟩

/-- Witness for C6 at a concrete non-empty collection with two candidates
and a run record. -/
theorem roundtrip_tofile_fromfile_witness :
    ∃ Y, fromfile (tofile Xc) = .ok Y ∧ Y.networks = Xc.networks ∧
      rankedView Y = rankedView Xc ∧ Y.runs = Xc.runs ∧ Y = Xc :=
  roundtrip_tofile_fromfile Xc (by decide)

/-- C7 (code bug): the constructor maps an explicit size argument of 0 to
the configured default (1000 under the default configuration, the
configured value otherwise), because `size or config.get('result.size')`
treats 0 as falsy — so a collection constructed with size 0 is bounded,
contrary to the claim; the unbounded behaviour does hold for a collection
whose stored size field is 0 (reachable only through the configuration),
and an omitted size defaults to 1000. -/
theorem size_zero_constructor_not_unbounded :
    (initLR 1000 (some 0) (some 0)).size = 1000 ∧
    (initLR 1000 (some 0) none).size = 1000 ∧
    (initLR 2 (some 0) (some 0)).size = 2 ∧
    Sz0.size = 0 ∧ Sz0.networks.length = 3 ∧
    (add_network Sz0 Nd 1).networks.length = 4 :=
  ⟨rfl, rfl, rfl, rfl, by decide, by decide⟩

/-- C8 counterexample: an accepted offer (the candidate is inserted into
the empty default collection) still returns `None`, not a boolean — the
Python `add_network` has no return statement. -/
theorem add_network_accepted_returns_none :
    (add_networkFull SemptyRuns Na 5).2 = none ∧
    (add_networkFull SemptyRuns Na 5).1.networks = [Na] ∧
    (add_networkFull SemptyRuns Na 5).2 ≠ some true ∧
    (add_networkFull SemptyRuns Na 5).2 ≠ some false :=
  ⟨rfl, by decide, by decide, by decide⟩

/-- C8 (amended): `add_network` returns no boolean — every call returns
`None`, whether the candidate was accepted or rejected; acceptance is
observable only through the state change. -/
theorem add_network_always_returns_none (s : LearnerResult) (net : Network) (sc : Int) :
    (add_networkFull s net sc).2 = none := rfl

/-- Witness for C8 at a concrete call. -/
theorem add_network_always_returns_none_witness :
    (add_networkFull S1 Nb 3).2 = none :=
  add_network_always_returns_none S1 Nb 3

/-- C9 counterexample: a collection whose only run record is already
closed has no open tracker, yet `stop_run` does not fail — it succeeds and
overwrites the closed record's end time. -/
theorem stop_run_no_open_tracker_no_error :
    Sclosed.runs = [{ start := 0, stop := some 1, host := 7 }] ∧
    stop_run Sclosed 5 =
      .ok { Sclosed with runs := [{ start := 0, stop := some 5, host := 7 }] } :=
  ⟨rfl, rfl⟩

/-- C9 (amended): `stop_run` fails (with the index error raised by
`runs[-1]`) exactly when the run list is empty; with a non-empty run list
it always succeeds, setting the end time of the most recent run record
even when that record was already stopped. -/
theorem stop_run_empty_fails_else_overwrites (s : LearnerResult) (t : Nat) :
    (s.runs = [] → stop_run s t = .error .indexError) ∧
    ∀ rs r, s.runs = rs ++ [r] →
      stop_run s t = .ok { s with runs := rs ++ [{ r with stop := some t }] } := by
  constructor
  · intro h
    unfold stop_run
    rw [h]
    rfl
  · intro rs r h
    unfold stop_run
    rw [h, List.getLast?_concat, List.dropLast_concat]

/-- Witness for C9: the empty-run-list failure and the closed-run
overwrite, at concrete collections. -/
theorem stop_run_empty_fails_else_overwrites_witness :
    stop_run SemptyRuns 3 = .error .indexError ∧
    stop_run Sclosed 5 =
      .ok { Sclosed with runs := [{ start := 0, stop := some 5, host := 7 }] } :=
  ⟨(stop_run_empty_fails_else_overwrites SemptyRuns 3).1 rfl,
    (stop_run_empty_fails_else_overwrites Sclosed 5).2 []
      { start := 0, stop := some 1, host := 7 } rfl⟩

/-- C10: `merge` applied to an empty sequence of collections fails with
the index error raised by `results[0]`, rather than returning an empty
collection. -/
theorem merge_empty_index_error : merge [] = .error .indexError := rfl

end Pebl
